import Mathlib

/-!
# Verification of an EKF/UKF sensor-fusion program

Shallow embedding of the repository's driver source (`src/main.cpp`) and —
where the filter engine classes (`Filter`, `EKF`, `UKF`) are not part of the
shipped sources — a model of the engine built from the specification
(definitions whose doc comment starts with `Modelled from the spec:`).

Numeric stream tokens are modelled as rationals; filter arithmetic uses
real numbers (the program's `double`s, idealized to exact arithmetic).
-/

open scoped Matrix
open Real (pi)

namespace SDCFusion

/-! ## Part 1: embeddings of `src/main.cpp` -/

/-- Sensor tag of a measurement package, as used by `getMeasurement`
(main.cpp lines 140-156). -/
inductive SensorType
  | LASER
  | RADAR
deriving DecidableEq, Repr

/-- Shallow embedding of `MeasurementPackage` as filled by `getMeasurement`
(main.cpp lines 128-167).  `sensor_type_` is `none` when neither tag branch
fires (in the C++ the enum field is then left unset). -/
structure MeasurementPackage where
  sensor_type_ : Option SensorType
  raw_measurements_ : List ℚ
  timestamp_ : ℚ
  ground_truth_ : Fin 6 → ℚ

/-- One `iss >> var` extraction step on the remaining numeric tokens of the
line: a failed extraction (exhausted stream) stores 0, as C++11 stream
extraction does on failure. -/
def extractNum : List ℚ → ℚ × List ℚ
  | [] => (0, [])
  | q :: qs => (q, qs)

/-- The six trailing ground-truth extractions of `getMeasurement`
(main.cpp lines 159-165). -/
def readGroundTruth (l : List ℚ) : Fin 6 → ℚ := fun i => l.getD i 0

/-- Shallow embedding of `getMeasurement` (main.cpp lines 128-167).  The
input line is given as its leading sensor tag token plus the numeric fields
following it. -/
def getMeasurement (sensor_type : String) (fields : List ℚ) : MeasurementPackage :=
  if sensor_type = "L" then
    let e1 := extractNum fields
    let e2 := extractNum e1.2
    let e3 := extractNum e2.2
    { sensor_type_ := some SensorType.LASER
      raw_measurements_ := [e1.1, e2.1]
      timestamp_ := e3.1
      ground_truth_ := readGroundTruth e3.2 }
  else if sensor_type = "R" then
    let e1 := extractNum fields
    let e2 := extractNum e1.2
    let e3 := extractNum e2.2
    let e4 := extractNum e3.2
    { sensor_type_ := some SensorType.RADAR
      raw_measurements_ := [e1.1, e2.1, e3.1]
      timestamp_ := e4.1
      ground_truth_ := readGroundTruth e4.2 }
  else
    { sensor_type_ := none
      raw_measurements_ := []
      timestamp_ := 0
      ground_truth_ := readGroundTruth fields }

/-- The two filter variants `main` can construct (main.cpp lines 182-188). -/
inductive FilterChoice
  | ukf
  | ekf
deriving DecidableEq, Repr

/-- Embedding of the variant selection in `main` (main.cpp lines 184-188):
the UKF is constructed exactly when `filter_choice.compare("ukf") == 0`,
everything else falls into the `else` branch constructing the EKF; no
validation of the string is performed. -/
def selectFilter (filter_choice : String) : FilterChoice :=
  if filter_choice = "ukf" then FilterChoice.ukf else FilterChoice.ekf

/-- Embedding of the estimate pushed for RMSE scoring in the simulator path
(main.cpp lines 233-240). -/
noncomputable def estimateSimulator (x_ : Fin 5 → ℝ) : Fin 4 → ℝ :=
  let p_x := x_ 0
  let p_y := x_ 1
  let v := x_ 2
  let yaw := x_ 3
  let v1 := Real.cos yaw * v
  let v2 := Real.sin yaw * v
  ![p_x, p_y, v1, v2]

/-- Embedding of the estimate pushed for RMSE scoring in the CSV-file path
(main.cpp lines 320-327). -/
noncomputable def estimateCsvFile (x_ : Fin 5 → ℝ) : Fin 4 → ℝ :=
  let p_x := x_ 0
  let p_y := x_ 1
  let v := x_ 2
  let yaw := x_ 3
  let v1 := Real.cos yaw * v
  let v2 := Real.sin yaw * v
  ![p_x, p_y, v1, v2]

/-- Embedding of `meas_package.ground_truth_.head(4)` (main.cpp lines
242 and 329): the first four ground-truth components. -/
def groundTruthHead4 (g : Fin 6 → ℚ) : Fin 4 → ℚ :=
  fun i => g (Fin.castLE (by omega) i)

/-! ## Part 2: the filter engine, modelled from the specification -/

/-- Modelled from the spec (4.1): the "small epsilon" guarding the division
by the turn rate in the CTRV model.  The exact threshold is not fixed by
the spec; it is held fixed here. -/
noncomputable def epsYawdd : ℝ := 1 / 1000

/-- Modelled from the spec (4.1): deterministic CTRV transition of the
state mean `(px, py, v, yaw, yawdd)` over elapsed time `dt`.  Near-zero
turn rate uses straight-line motion (no division by the turn rate);
otherwise the closed-form integration; `v` and `yawdd` are constant. -/
noncomputable def processModel (s : Fin 5 → ℝ) (dt : ℝ) : Fin 5 → ℝ :=
  let px := s 0
  let py := s 1
  let v := s 2
  let yaw := s 3
  let yawdd := s 4
  ![if |yawdd| < epsYawdd then px + v * Real.cos yaw * dt
    else px + v / yawdd * (Real.sin (yaw + yawdd * dt) - Real.sin yaw),
    if |yawdd| < epsYawdd then py + v * Real.sin yaw * dt
    else py + v / yawdd * (-Real.cos (yaw + yawdd * dt) + Real.cos yaw),
    v,
    yaw + yawdd * dt,
    yawdd]

/-- Modelled from the spec (3): normalization of an angle into the
interval `(-pi, pi]`. -/
noncomputable def normalizeAngle (theta : ℝ) : ℝ :=
  theta - 2 * pi * (⌈(theta - pi) / (2 * pi)⌉ : ℝ)

/-- Modelled from the spec (3): replace the heading component (index 3) of
a state vector by its normalization into `(-pi, pi]`. -/
noncomputable def normalizeYaw (x : Fin 5 → ℝ) : Fin 5 → ℝ :=
  Function.update x 3 (normalizeAngle (x 3))

/-- Modelled from the spec (4.2, error handling): position-sensor noise
covariance; the concrete standard deviations are not part of the shipped
sources, a fixed positive diagonal is used. -/
noncomputable def R_laser : Matrix (Fin 2) (Fin 2) ℝ :=
  Matrix.diagonal ![(0.15 : ℝ) ^ 2, (0.15 : ℝ) ^ 2]

/-- Modelled from the spec (4.2): range-sensor noise covariance; fixed
positive diagonal. -/
noncomputable def R_radar : Matrix (Fin 3) (Fin 3) ℝ :=
  Matrix.diagonal ![(0.3 : ℝ) ^ 2, (0.03 : ℝ) ^ 2, (0.3 : ℝ) ^ 2]

/-- Linear position-sensor measurement matrix (spec 4.2). -/
def H_laser : Matrix (Fin 2) (Fin 5) ℝ :=
  !![1, 0, 0, 0, 0; 0, 1, 0, 0, 0]

/-- Modelled from the spec (4.2): position-sensor measurement model,
mapping state to the measured (px, py). -/
noncomputable def laserMeasModel (s : Fin 5 → ℝ) : Fin 2 → ℝ :=
  H_laser.mulVec s

/-- Modelled from the spec: four-quadrant arctangent (bearing of the point
(x, y)), valued in `(-pi, pi]`. -/
noncomputable def atan2 (y x : ℝ) : ℝ := Complex.arg ⟨x, y⟩

/-- Modelled from the spec (4.2): nonlinear range-sensor measurement model
mapping state to (range, bearing, range rate). -/
noncomputable def radarMeasModel (s : Fin 5 → ℝ) : Fin 3 → ℝ :=
  let px := s 0
  let py := s 1
  let v := s 2
  let yaw := s 3
  let rho := Real.sqrt (px ^ 2 + py ^ 2)
  ![rho, atan2 py px, (px * Real.cos yaw * v + py * Real.sin yaw * v) / rho]

/-- Modelled from the spec (4.2): threshold under which the predicted
squared range counts as numerically zero. -/
noncomputable def epsRange : ℝ := 1 / 1000000

/-- Modelled from the spec (4.2): Jacobian of the range-sensor measurement
model at a state; when the predicted squared range is numerically ~0 the
range-rate row is replaced by the zero-safe fallback (a zero row). -/
noncomputable def radarJacobian (s : Fin 5 → ℝ) : Matrix (Fin 3) (Fin 5) ℝ :=
  let px := s 0
  let py := s 1
  let v := s 2
  let yaw := s 3
  let c1 := px ^ 2 + py ^ 2
  let c2 := Real.sqrt c1
  let vx := Real.cos yaw * v
  let vy := Real.sin yaw * v
  !![px / c2, py / c2, 0, 0, 0;
     -(py / c1), px / c1, 0, 0, 0;
     if c1 < epsRange then 0 else py * (vx * py - vy * px) / (c1 * c2),
     if c1 < epsRange then 0 else px * (vy * px - vx * py) / (c1 * c2),
     if c1 < epsRange then 0 else (px * Real.cos yaw + py * Real.sin yaw) / c2,
     if c1 < epsRange then 0 else (py * vx / v - px * vy / v) * v / c2,
     0]

/-- Modelled from the spec (4.2): Jacobian of the CTRV transition with
respect to the five state variables, with the same zero-turn-rate branch
as the process model. -/
noncomputable def ctrvJacobian (s : Fin 5 → ℝ) (dt : ℝ) : Matrix (Fin 5) (Fin 5) ℝ :=
  let v := s 2
  let yaw := s 3
  let yawdd := s 4
  if |yawdd| < epsYawdd then
    !![1, 0, Real.cos yaw * dt, -(v * Real.sin yaw * dt), 0;
       0, 1, Real.sin yaw * dt, v * Real.cos yaw * dt, 0;
       0, 0, 1, 0, 0;
       0, 0, 0, 1, dt;
       0, 0, 0, 0, 1]
  else
    !![1, 0, (Real.sin (yaw + yawdd * dt) - Real.sin yaw) / yawdd,
       v / yawdd * (Real.cos (yaw + yawdd * dt) - Real.cos yaw),
       dt * v / yawdd * Real.cos (yaw + yawdd * dt)
         - v / yawdd ^ 2 * (Real.sin (yaw + yawdd * dt) - Real.sin yaw);
       0, 1, (-Real.cos (yaw + yawdd * dt) + Real.cos yaw) / yawdd,
       v / yawdd * (Real.sin (yaw + yawdd * dt) - Real.sin yaw),
       dt * v / yawdd * Real.sin (yaw + yawdd * dt)
         - v / yawdd ^ 2 * (-Real.cos (yaw + yawdd * dt) + Real.cos yaw);
       0, 0, 1, 0, 0;
       0, 0, 0, 1, dt;
       0, 0, 0, 0, 1]

/-- Modelled from the spec (4.2): noise-gain matrix of the CTRV model,
mapping the two acceleration noises into state space. -/
noncomputable def noiseGain (s : Fin 5 → ℝ) (dt : ℝ) : Matrix (Fin 5) (Fin 2) ℝ :=
  let yaw := s 3
  !![dt ^ 2 / 2 * Real.cos yaw, 0;
     dt ^ 2 / 2 * Real.sin yaw, 0;
     dt, 0;
     0, dt ^ 2 / 2;
     0, dt]

/-- Modelled from the spec (4.2): additive process-noise covariance
derived from the two noise standard deviations and dt. -/
noncomputable def processNoiseQ (s : Fin 5 → ℝ) (dt std_a std_yawdd : ℝ) :
    Matrix (Fin 5) (Fin 5) ℝ :=
  noiseGain s dt * Matrix.diagonal ![std_a ^ 2, std_yawdd ^ 2] * (noiseGain s dt)ᵀ

/-- Modelled from the spec (4.2): linearized-variant predicted state mean,
heading normalized. -/
noncomputable def ekfPredictMean (x : Fin 5 → ℝ) (dt : ℝ) : Fin 5 → ℝ :=
  normalizeYaw (processModel x dt)

/-- Modelled from the spec (4.2): linearized-variant predicted covariance
F P Ft + Q. -/
noncomputable def ekfPredictCov (x : Fin 5 → ℝ) (P : Matrix (Fin 5) (Fin 5) ℝ)
    (dt std_a std_yawdd : ℝ) : Matrix (Fin 5) (Fin 5) ℝ :=
  ctrvJacobian x dt * P * (ctrvJacobian x dt)ᵀ + processNoiseQ x dt std_a std_yawdd

/-- Modelled from the spec (4.2): explicit symmetrization of a covariance
after the update. -/
noncomputable def symmetrize (M : Matrix (Fin 5) (Fin 5) ℝ) : Matrix (Fin 5) (Fin 5) ℝ :=
  (2⁻¹ : ℝ) • (M + Mᵀ)

/-- Modelled from the spec (4.2): covariance part of the linear Kalman
update, P = (I - K H) P, symmetrized. -/
noncomputable def ekfUpdateCov {m : ℕ} (H : Matrix (Fin m) (Fin 5) ℝ)
    (R : Matrix (Fin m) (Fin m) ℝ) (P : Matrix (Fin 5) (Fin 5) ℝ) :
    Matrix (Fin 5) (Fin 5) ℝ :=
  let S := H * P * Hᵀ + R
  let K := P * Hᵀ * S⁻¹
  symmetrize ((1 - K * H) * P)

/-- Modelled from the spec (4.4): the Normalized Innovation Squared of an
innovation y with innovation covariance S. -/
noncomputable def nisOf {m : ℕ} (S : Matrix (Fin m) (Fin m) ℝ) (y : Fin m → ℝ) : ℝ :=
  y ⬝ᵥ S⁻¹.mulVec y

/-- Modelled from the spec (4.2, 4.3): normalization of the component at
the given index (the bearing, when present) of a measurement-space
vector. -/
noncomputable def normAt {m : ℕ} (oi : Option (Fin m)) (v : Fin m → ℝ) : Fin m → ℝ :=
  fun j => if oi = some j then normalizeAngle (v j) else v j

/-- Modelled from the spec (4.2): linearized-variant position-sensor
update; returns (new mean, new covariance, NIS). -/
noncomputable def ekfUpdateLaser (x : Fin 5 → ℝ) (P : Matrix (Fin 5) (Fin 5) ℝ)
    (z : Fin 2 → ℝ) : (Fin 5 → ℝ) × Matrix (Fin 5) (Fin 5) ℝ × ℝ :=
  let y := fun j => z j - laserMeasModel x j
  let S := H_laser * P * H_laserᵀ + R_laser
  let K := P * H_laserᵀ * S⁻¹
  (normalizeYaw (x + K.mulVec y), ekfUpdateCov H_laser R_laser P, nisOf S y)

/-- Modelled from the spec (4.2): linearized-variant range-sensor update
with angle-normalized bearing innovation; returns (new mean, new
covariance, NIS). -/
noncomputable def ekfUpdateRadar (x : Fin 5 → ℝ) (P : Matrix (Fin 5) (Fin 5) ℝ)
    (z : Fin 3 → ℝ) : (Fin 5 → ℝ) × Matrix (Fin 5) (Fin 5) ℝ × ℝ :=
  let y := normAt (some 1) (fun j => z j - radarMeasModel x j)
  let H := radarJacobian x
  let S := H * P * Hᵀ + R_radar
  let K := P * Hᵀ * S⁻¹
  (normalizeYaw (x + K.mulVec y), ekfUpdateCov H R_radar P, nisOf S y)

/-- Modelled from the spec (4.3, Design Notes): sigma-point spread
parameter lambda.  The spec leaves the exact value open and requires only
that the choice be documented and held fixed; it is fixed here to 3, a
choice that keeps every sigma weight nonnegative. -/
noncomputable def lamSig : ℝ := 3

/-- Modelled from the spec (4.3): the 2n+1 = 15 sigma weights for the
augmented dimension n = 7: lambda/(lambda+n) for the mean point and
1/(2 (lambda+n)) for the others. -/
noncomputable def wSig : Fin 15 → ℝ := fun i =>
  if i = 0 then lamSig / (lamSig + 7) else 1 / (2 * (lamSig + 7))

/-- Modelled from the spec (4.3): the augmented mean, the state mean
extended by the two zero-mean noise variables. -/
noncomputable def augMean (x : Fin 5 → ℝ) : Fin 7 → ℝ := fun i =>
  if h : (i : ℕ) < 5 then x ⟨i, h⟩ else 0

/-- Modelled from the spec (4.3): the augmented covariance, block-diagonal
from P and diag(std_a^2, std_yawdd^2). -/
noncomputable def augCov (P : Matrix (Fin 5) (Fin 5) ℝ) (std_a std_yawdd : ℝ) :
    Matrix (Fin 7) (Fin 7) ℝ :=
  Matrix.of fun i j =>
    if hi : (i : ℕ) < 5 then
      (if hj : (j : ℕ) < 5 then P ⟨i, hi⟩ ⟨j, hj⟩ else 0)
    else if (i : ℕ) = (j : ℕ) then
      (if (i : ℕ) = 5 then std_a ^ 2 else std_yawdd ^ 2)
    else 0

/-- Entry of a 7x7 matrix addressed by natural-number indices (0 outside
the range); a helper for the Cholesky recursion. -/
noncomputable def entry7 (A : Matrix (Fin 7) (Fin 7) ℝ) (j k : ℕ) : ℝ :=
  if h : j < 7 ∧ k < 7 then A ⟨j, h.1⟩ ⟨k, h.2⟩ else 0

/-- Modelled from the spec (4.3): entries of the lower-triangular Cholesky
factor of a 7x7 matrix, by the standard recursion on (row, column). -/
noncomputable def cholAux (A : Matrix (Fin 7) (Fin 7) ℝ) : ℕ → ℕ → ℝ := fun j k =>
  if hlt : k < j then
    (entry7 A j k -
        ∑ m ∈ (Finset.range k).attach, cholAux A j m.1 * cholAux A k m.1) /
      cholAux A k k
  else if k = j then
    Real.sqrt (entry7 A j j - ∑ m ∈ (Finset.range j).attach, cholAux A j m.1 ^ 2)
  else 0
termination_by j k => j + k
decreasing_by
  · have := Finset.mem_range.mp m.2
    omega
  · have := Finset.mem_range.mp m.2
    omega
  · omega
  · have := Finset.mem_range.mp m.2
    omega

/-- Modelled from the spec (4.3): the matrix square root taken via
Cholesky. -/
noncomputable def cholesky (A : Matrix (Fin 7) (Fin 7) ℝ) : Matrix (Fin 7) (Fin 7) ℝ :=
  Matrix.of fun j k => cholAux A (j : ℕ) (k : ℕ)

/-- Modelled from the spec (4.3): the 2n+1 sigma points: the augmented
mean, then mean + column and mean - column for each of the 7 columns of
the square-root factor L. -/
noncomputable def sigmaPoints (xa : Fin 7 → ℝ) (L : Matrix (Fin 7) (Fin 7) ℝ) :
    Fin 15 → Fin 7 → ℝ :=
  ![xa,
    fun r => xa r + L r 0, fun r => xa r + L r 1, fun r => xa r + L r 2,
    fun r => xa r + L r 3, fun r => xa r + L r 4, fun r => xa r + L r 5,
    fun r => xa r + L r 6,
    fun r => xa r - L r 0, fun r => xa r - L r 1, fun r => xa r - L r 2,
    fun r => xa r - L r 3, fun r => xa r - L r 4, fun r => xa r - L r 5,
    fun r => xa r - L r 6]

/-- Modelled from the spec (4.1, 4.3): CTRV transition of one augmented
sigma point; the two trailing noise coordinates enter as the additive
noise contributions (scaled by dt) to position, speed, yaw and yaw
rate. -/
noncomputable def processModelAug (p : Fin 7 → ℝ) (dt : ℝ) : Fin 5 → ℝ :=
  let base := processModel (fun r => p (Fin.castLE (by omega) r)) dt
  let nu_a := p 5
  let nu_y := p 6
  ![base 0 + dt ^ 2 / 2 * Real.cos (p 3) * nu_a,
    base 1 + dt ^ 2 / 2 * Real.sin (p 3) * nu_a,
    base 2 + dt * nu_a,
    base 3 + dt ^ 2 / 2 * nu_y,
    base 4 + dt * nu_y]

/-- Modelled from the spec (4.3): predicted sigma points - the generated
augmented sigma points passed through the process model. -/
noncomputable def ukfPredictedSigma (x : Fin 5 → ℝ) (P : Matrix (Fin 5) (Fin 5) ℝ)
    (std_a std_yawdd dt : ℝ) : Fin 15 → Fin 5 → ℝ := fun i =>
  processModelAug
    (sigmaPoints (augMean x) (cholesky ((lamSig + 7) • augCov P std_a std_yawdd)) i) dt

/-- Modelled from the spec (4.3): weighted sigma mean in state space, with
the yaw component normalized. -/
noncomputable def ukfMeanOf (pts : Fin 15 → Fin 5 → ℝ) : Fin 5 → ℝ :=
  normalizeYaw (fun r => ∑ i, wSig i * pts i r)

/-- Modelled from the spec (4.3): sigma-point difference from the mean,
with the yaw difference component normalized. -/
noncomputable def stateDiff (xp q : Fin 5 → ℝ) : Fin 5 → ℝ :=
  Function.update (fun r => q r - xp r) 3 (normalizeAngle (q 3 - xp 3))

/-- Modelled from the spec (4.3): covariance reconstructed as the weighted
sum of outer products of the (yaw-normalized) sigma differences. -/
noncomputable def ukfCovOf (pts : Fin 15 → Fin 5 → ℝ) (xp : Fin 5 → ℝ) :
    Matrix (Fin 5) (Fin 5) ℝ :=
  ∑ i, wSig i • Matrix.vecMulVec (stateDiff xp (pts i)) (stateDiff xp (pts i))

/-- Modelled from the spec (4.3): predicted measurement covariance from
the weighted measurement-sigma differences, plus the sensor noise R. -/
noncomputable def ukfInnovCov {m : ℕ} (dz : Fin 15 → Fin m → ℝ)
    (R : Matrix (Fin m) (Fin m) ℝ) : Matrix (Fin m) (Fin m) ℝ :=
  (∑ i, wSig i • Matrix.vecMulVec (dz i) (dz i)) + R

/-- Modelled from the spec (4.3): cross-covariance between state-space and
measurement-space sigma differences. -/
noncomputable def ukfCrossCov {m : ℕ} (dx : Fin 15 → Fin 5 → ℝ)
    (dz : Fin 15 → Fin m → ℝ) : Matrix (Fin 5) (Fin m) ℝ :=
  ∑ i, wSig i • Matrix.vecMulVec (dx i) (dz i)

/-- Modelled from the spec (4.3): covariance part of the sigma-point
update, P = P - K S Kt with gain K = T S⁻¹, symmetrized. -/
noncomputable def ukfUpdatedCov {m : ℕ} (Pp : Matrix (Fin 5) (Fin 5) ℝ)
    (T : Matrix (Fin 5) (Fin m) ℝ) (S : Matrix (Fin m) (Fin m) ℝ) :
    Matrix (Fin 5) (Fin 5) ℝ :=
  symmetrize (Pp - T * S⁻¹ * S * (T * S⁻¹)ᵀ)

/-- Modelled from the spec (4.3): measurement-space sigma differences from
their weighted mean, with the bearing component normalized. -/
noncomputable def ukfMeasDiffs {m : ℕ} (hz : (Fin 5 → ℝ) → Fin m → ℝ)
    (oi : Option (Fin m)) (pts : Fin 15 → Fin 5 → ℝ) : Fin 15 → Fin m → ℝ :=
  fun i =>
    normAt oi (fun j => hz (pts i) j - normAt oi (fun j2 => ∑ k, wSig k * hz (pts k) j2) j)

/-- Modelled from the spec (4.3): sigma-point measurement update from the
predicted sigma points pts, their mean xp and covariance Pp, using
measurement model hz, sensor noise R and bearing index oi; returns (new
mean, new covariance, NIS).  The same sigma points generated during
predict are reused. -/
noncomputable def ukfUpdate {m : ℕ} (hz : (Fin 5 → ℝ) → Fin m → ℝ)
    (R : Matrix (Fin m) (Fin m) ℝ) (oi : Option (Fin m))
    (pts : Fin 15 → Fin 5 → ℝ) (xp : Fin 5 → ℝ) (Pp : Matrix (Fin 5) (Fin 5) ℝ)
    (z : Fin m → ℝ) : (Fin 5 → ℝ) × Matrix (Fin 5) (Fin 5) ℝ × ℝ :=
  let zpred : Fin m → ℝ := normAt oi (fun j => ∑ i, wSig i * hz (pts i) j)
  let dz : Fin 15 → Fin m → ℝ := ukfMeasDiffs hz oi pts
  let S := ukfInnovCov dz R
  let T := ukfCrossCov (fun i => stateDiff xp (pts i)) dz
  let K := T * S⁻¹
  let y := normAt oi (fun j => z j - zpred j)
  (normalizeYaw (xp + K.mulVec y), ukfUpdatedCov Pp T S, nisOf S y)

/-- Modelled from the spec (3, 4.5, 6): the filter instance state shared
by both variants: configuration, initialization flag, state mean and
covariance, last NIS values, the per-sensor NIS violation counters and the
shared step counter. -/
structure Engine where
  variant : FilterChoice
  use_laser : Bool
  use_radar : Bool
  std_a : ℝ
  std_yawdd : ℝ
  is_initialized_ : Bool
  previous_timestamp_ : ℚ
  x_ : Fin 5 → ℝ
  P_ : Matrix (Fin 5) (Fin 5) ℝ
  nis_laser_ : ℝ
  nis_radar_ : ℝ
  nis_laser_counter_ : ℕ
  nis_radar_counter_ : ℕ
  timestep_ : ℕ

/-- Modelled from the spec (4.4): chi-square 95% critical value at 2
degrees of freedom (position sensor). -/
noncomputable def chi2Laser : ℝ := 5.991

/-- Modelled from the spec (4.4): chi-square 95% critical value at 3
degrees of freedom (range sensor). -/
noncomputable def chi2Radar : ℝ := 7.815

/-- Modelled from the spec (3, lifecycle): a freshly constructed filter:
uninitialized, zero state, identity-like covariance, zero counters. -/
noncomputable def mkEngine (variant : FilterChoice) (use_laser use_radar : Bool)
    (std_a std_yawdd : ℝ) : Engine :=
  { variant := variant
    use_laser := use_laser
    use_radar := use_radar
    std_a := std_a
    std_yawdd := std_yawdd
    is_initialized_ := false
    previous_timestamp_ := 0
    x_ := fun _ => 0
    P_ := 1
    nis_laser_ := 0
    nis_radar_ := 0
    nis_laser_counter_ := 0
    nis_radar_counter_ := 0
    timestep_ := 0 }

/-- Raw measurement component i of a package (0 when absent). -/
def rawAt (p : MeasurementPackage) (i : ℕ) : ℚ :=
  p.raw_measurements_.getD i 0

/-- Modelled from the spec (4.5): state seeding from the first
measurement: position directly from a position measurement, or from the
polar coordinates of a range measurement; velocity, yaw and yaw rate
seeded to zero. -/
noncomputable def initState (st : SensorType) (p : MeasurementPackage) : Fin 5 → ℝ :=
  match st with
  | SensorType.LASER => ![((rawAt p 0 : ℚ) : ℝ), ((rawAt p 1 : ℚ) : ℝ), 0, 0, 0]
  | SensorType.RADAR =>
      ![((rawAt p 0 : ℚ) : ℝ) * Real.cos ((rawAt p 1 : ℚ) : ℝ),
        ((rawAt p 0 : ℚ) : ℝ) * Real.sin ((rawAt p 1 : ℚ) : ℝ), 0, 0, 0]

/-- Modelled from the spec (4.5): moderate sensor-informed diagonal
initial covariance. -/
noncomputable def initCov : Matrix (Fin 5) (Fin 5) ℝ :=
  Matrix.diagonal ![(0.15 : ℝ) ^ 2, (0.15 : ℝ) ^ 2, 1, 1, 1]

/-- The position-sensor measurement vector of a package. -/
noncomputable def zLaser (p : MeasurementPackage) : Fin 2 → ℝ :=
  ![((rawAt p 0 : ℚ) : ℝ), ((rawAt p 1 : ℚ) : ℝ)]

/-- The range-sensor measurement vector of a package. -/
noncomputable def zRadar (p : MeasurementPackage) : Fin 3 → ℝ :=
  ![((rawAt p 0 : ℚ) : ℝ), ((rawAt p 1 : ℚ) : ℝ), ((rawAt p 2 : ℚ) : ℝ)]

/-- Modelled from the spec (4.2): one linearized-variant predict + update
cycle on mean and covariance; returns (new mean, new covariance, NIS). -/
noncomputable def ekfStep (e : Engine) (st : SensorType) (dt : ℝ)
    (p : MeasurementPackage) : (Fin 5 → ℝ) × Matrix (Fin 5) (Fin 5) ℝ × ℝ :=
  let x1 := ekfPredictMean e.x_ dt
  let P1 := ekfPredictCov e.x_ e.P_ dt e.std_a e.std_yawdd
  match st with
  | SensorType.LASER => ekfUpdateLaser x1 P1 (zLaser p)
  | SensorType.RADAR => ekfUpdateRadar x1 P1 (zRadar p)

/-- Modelled from the spec (4.3): one sigma-point-variant predict + update
cycle; the update reuses the sigma points generated during predict. -/
noncomputable def ukfStep (e : Engine) (st : SensorType) (dt : ℝ)
    (p : MeasurementPackage) : (Fin 5 → ℝ) × Matrix (Fin 5) (Fin 5) ℝ × ℝ :=
  let pts := ukfPredictedSigma e.x_ e.P_ e.std_a e.std_yawdd dt
  let xp := ukfMeanOf pts
  let Pp := ukfCovOf pts xp
  match st with
  | SensorType.LASER => ukfUpdate laserMeasModel R_laser none pts xp Pp (zLaser p)
  | SensorType.RADAR => ukfUpdate radarMeasModel R_radar (some 1) pts xp Pp (zRadar p)

/-- Modelled from the spec (4.5, 4.4): the polymorphic facade
ProcessMeasurement.  A package with no sensor tag is skipped; a disabled
modality is consumed without predict or update; the first enabled
measurement initializes (Uninitialized to Running, no update); every
later one runs predict over the elapsed time then the matching update,
with NIS bookkeeping. -/
noncomputable def ProcessMeasurement (p : MeasurementPackage) (e : Engine) : Engine :=
  match p.sensor_type_ with
  | none => e
  | some st =>
    if (st = SensorType.LASER ∧ e.use_laser = false) ∨
        (st = SensorType.RADAR ∧ e.use_radar = false) then e
    else if e.is_initialized_ = false then
      { e with is_initialized_ := true
               x_ := initState st p
               P_ := initCov
               previous_timestamp_ := p.timestamp_ }
    else
      let dt : ℝ := ((p.timestamp_ - e.previous_timestamp_ : ℚ) : ℝ) / 1000000
      let r := match e.variant with
               | FilterChoice.ekf => ekfStep e st dt p
               | FilterChoice.ukf => ukfStep e st dt p
      match st with
      | SensorType.LASER =>
        { e with x_ := r.1
                 P_ := r.2.1
                 nis_laser_ := r.2.2
                 previous_timestamp_ := p.timestamp_
                 nis_laser_counter_ :=
                   e.nis_laser_counter_ + (if chi2Laser < r.2.2 then 1 else 0)
                 timestep_ := e.timestep_ + 1 }
      | SensorType.RADAR =>
        { e with x_ := r.1
                 P_ := r.2.1
                 nis_radar_ := r.2.2
                 previous_timestamp_ := p.timestamp_
                 nis_radar_counter_ :=
                   e.nis_radar_counter_ + (if chi2Radar < r.2.2 then 1 else 0)
                 timestep_ := e.timestep_ + 1 }

/-- Processing a whole measurement stream, in order. -/
noncomputable def processAll (ms : List MeasurementPackage) (e : Engine) : Engine :=
  ms.foldl (fun acc p => ProcessMeasurement p acc) e

/-- The heading invariant of the data model (spec 3): once the engine is
initialized, the heading component of the exposed state lies in
`(-pi, pi]`. -/
def HeadingInv (e : Engine) : Prop :=
  e.is_initialized_ = true → e.x_ 3 ∈ Set.Ioc (-pi) pi

/-- The NIS bookkeeping invariant (spec 4.4): each per-sensor violation
counter is bounded by the shared step counter. -/
def CounterInv (e : Engine) : Prop :=
  e.nis_laser_counter_ ≤ e.timestep_ ∧ e.nis_radar_counter_ ≤ e.timestep_

/-! ## Part 3: theorems -/

/-- The normalization always lands in the interval `(-pi, pi]`. -/
theorem normalizeAngle_mem (theta : ℝ) :
    normalizeAngle theta ∈ Set.Ioc (-pi) pi := by
  have hpi := Real.pi_pos
  have h2 : (0 : ℝ) < 2 * pi := by linarith
  set k : ℝ := (⌈(theta - pi) / (2 * pi)⌉ : ℝ) with hk
  have hle : (theta - pi) / (2 * pi) ≤ k := Int.le_ceil _
  have hlt : k < (theta - pi) / (2 * pi) + 1 := Int.ceil_lt_add_one _
  have e : (theta - pi) / (2 * pi) * (2 * pi) = theta - pi :=
    div_mul_cancel₀ _ (ne_of_gt h2)
  have h1 : theta - pi ≤ 2 * pi * k := by nlinarith
  have h3 : 2 * pi * k < theta - pi + 2 * pi := by nlinarith
  constructor
  · simp only [normalizeAngle, ← hk]
    linarith
  · simp only [normalizeAngle, ← hk]
    linarith

/-- Angles already in the interval `(-pi, pi]` are fixed by the
normalization. -/
theorem normalizeAngle_eq_self {theta : ℝ} (h : theta ∈ Set.Ioc (-pi) pi) :
    normalizeAngle theta = theta := by
  have hpi := Real.pi_pos
  have h2 : (0 : ℝ) < 2 * pi := by linarith
  have hzero : ⌈(theta - pi) / (2 * pi)⌉ = 0 := by
    rw [Int.ceil_eq_zero_iff]
    constructor
    · rw [lt_div_iff₀ h2]
      nlinarith [h.1]
    · apply div_nonpos_of_nonpos_of_nonneg
      · linarith [h.2]
      · linarith
  simp [normalizeAngle, hzero]

/-- The yaw component of a yaw-normalized state lies in `(-pi, pi]`. -/
theorem normalizeYaw_mem (x : Fin 5 → ℝ) :
    normalizeYaw x 3 ∈ Set.Ioc (-pi) pi := by
  simpa [normalizeYaw] using normalizeAngle_mem (x 3)

/-- The deterministic CTRV transition at dt = 0 is the identity. -/
theorem processModel_zero (s : Fin 5 → ℝ) : processModel s 0 = s := by
  funext j
  fin_cases j <;> simp [processModel]

/-- At dt = 0 the augmented transition only projects an augmented point to
its state coordinates. -/
theorem processModelAug_zero (p : Fin 7 → ℝ) :
    processModelAug p 0 = fun r => p (Fin.castLE (by omega) r) := by
  funext j
  fin_cases j <;> simp [processModelAug, processModel, Fin.castLE] <;>
    congr 1

/-- The weighted sigma mean of the generated sigma points recovers the
augmented mean in every coordinate, whatever the square-root factor is. -/
theorem sigma_mean_cancel (xa : Fin 7 → ℝ) (L : Matrix (Fin 7) (Fin 7) ℝ) (r : Fin 7) :
    ∑ i, wSig i * sigmaPoints xa L i r = xa r := by
  simp [Fin.sum_univ_succ, sigmaPoints, wSig, lamSig, Fin.succ_ne_zero]
  ring

/-- Every sigma weight of the modelled spread choice is nonnegative. -/
theorem wSig_nonneg (i : Fin 15) : 0 ≤ wSig i := by
  unfold wSig lamSig
  split <;> norm_num

/-- At dt = 0 the sigma-point predicted mean is the prior mean, provided
the prior heading is normalized. -/
theorem ukfMean_zero (x : Fin 5 → ℝ) (hx : x 3 ∈ Set.Ioc (-pi) pi)
    (P : Matrix (Fin 5) (Fin 5) ℝ) (sa sy : ℝ) :
    ukfMeanOf (ukfPredictedSigma x P sa sy 0) = x := by
  have hmean : (fun r => ∑ i, wSig i * ukfPredictedSigma x P sa sy 0 i r) = x := by
    funext r
    have hp : ∀ i : Fin 15, ukfPredictedSigma x P sa sy 0 i r =
        sigmaPoints (augMean x) (cholesky ((lamSig + 7) • augCov P sa sy)) i
          (Fin.castLE (by omega) r) := by
      intro i
      simp [ukfPredictedSigma, processModelAug_zero]
    rw [Finset.sum_congr rfl fun i _ => by rw [hp i]]
    rw [sigma_mean_cancel]
    simp [augMean, Fin.castLE]
  unfold ukfMeanOf
  rw [hmean]
  unfold normalizeYaw
  rw [normalizeAngle_eq_self hx, Function.update_eq_self]

/-- A real positive semidefinite matrix is symmetric. -/
theorem isSymm_of_posSemidef {n : Type*} [Fintype n] {M : Matrix n n ℝ}
    (h : M.PosSemidef) : M.IsSymm := by
  have h1 := h.1
  rwa [Matrix.IsHermitian, Matrix.conjTranspose_eq_transpose_of_trivial] at h1

/-- Symmetrization fixes symmetric matrices. -/
theorem symmetrize_eq_self {M : Matrix (Fin 5) (Fin 5) ℝ} (h : M.IsSymm) :
    symmetrize M = M := by
  unfold symmetrize
  rw [Matrix.IsSymm] at h
  rw [h, ← two_smul ℝ M, smul_smul]
  norm_num

/-- Outer products of a real vector with itself are positive
semidefinite. -/
theorem posSemidef_outer {n : Type*} [Fintype n] (v : n → ℝ) :
    (Matrix.vecMulVec v v).PosSemidef := by
  have hv : star v = v := funext fun r => star_trivial _
  have h : Matrix.vecMulVec v v = Matrix.col Unit v * (Matrix.col Unit v)ᴴ := by
    rw [Matrix.conjTranspose_col, hv, ← Matrix.vecMulVec_eq]
  rw [h]
  exact Matrix.posSemidef_self_mul_conjTranspose _

/-- Nonnegative scalar multiples of positive semidefinite matrices are
positive semidefinite. -/
theorem posSemidef_smul {n : Type*} [Fintype n] {M : Matrix n n ℝ}
    (hM : M.PosSemidef) {c : ℝ} (hc : 0 ≤ c) : (c • M).PosSemidef := by
  constructor
  · show (c • M)ᴴ = c • M
    rw [Matrix.conjTranspose_smul, hM.1, star_trivial]
  · intro x
    have h := hM.2 x
    have hs : (c • M) *ᵥ x = c • (M *ᵥ x) := Matrix.smul_mulVec_assoc c M x
    rw [hs, Matrix.dotProduct_smul]
    exact mul_nonneg hc h

/-- Finite sums of positive semidefinite matrices are positive
semidefinite. -/
theorem posSemidef_sum {n : Type*} [Fintype n] (f : Fin 15 → Matrix n n ℝ)
    (hf : ∀ i, (f i).PosSemidef) : (∑ i, f i).PosSemidef :=
  Finset.sum_induction f _ (fun _ _ ha hb => ha.add hb) Matrix.PosSemidef.zero
    (fun i _ => hf i)

/-- Nonnegatively weighted sums of outer products are positive
semidefinite. -/
theorem posSemidef_weighted_outer {n : Type*} [Fintype n] (w : Fin 15 → ℝ)
    (hw : ∀ i, 0 ≤ w i) (d : Fin 15 → n → ℝ) :
    (∑ i, w i • Matrix.vecMulVec (d i) (d i)).PosSemidef :=
  posSemidef_sum _ fun i => posSemidef_smul (posSemidef_outer (d i)) (hw i)

/-- The transpose of an outer product swaps its factors. -/
theorem vecMulVec_transpose {n m : Type*} (a : n → ℝ) (b : m → ℝ) :
    (Matrix.vecMulVec a b)ᵀ = Matrix.vecMulVec b a := by
  ext i j
  simp [Matrix.vecMulVec_apply, mul_comm]

/-- The zero-padded sensor-noise block is positive semidefinite. -/
theorem posSemidef_fromBlocks_zero {k m : ℕ} {R : Matrix (Fin m) (Fin m) ℝ}
    (hR : R.PosSemidef) :
    (Matrix.fromBlocks (0 : Matrix (Fin k) (Fin k) ℝ) 0 0 R).PosSemidef := by
  have h : Matrix.fromBlocks (0 : Matrix (Fin k) (Fin k) ℝ) 0 0 R =
      Matrix.fromRows (0 : Matrix (Fin k) (Fin m) ℝ) (1 : Matrix (Fin m) (Fin m) ℝ) * R *
        (Matrix.fromRows (0 : Matrix (Fin k) (Fin m) ℝ) 1)ᴴ := by
    rw [Matrix.conjTranspose_fromRows_eq_fromColumns_conjTranspose,
        Matrix.fromRows_mul, Matrix.fromRows_mul_fromColumns]
    simp
  rw [h]
  exact hR.mul_mul_conjTranspose_same _

/-- Splitting the joint sigma second-moment matrix into its blocks. -/
theorem joint_blocks {m : ℕ} (w : Fin 15 → ℝ) (dx : Fin 15 → Fin 5 → ℝ)
    (dz : Fin 15 → Fin m → ℝ) (R : Matrix (Fin m) (Fin m) ℝ) :
    Matrix.fromBlocks (∑ i, w i • Matrix.vecMulVec (dx i) (dx i))
      (∑ i, w i • Matrix.vecMulVec (dx i) (dz i))
      (∑ i, w i • Matrix.vecMulVec (dz i) (dx i))
      ((∑ i, w i • Matrix.vecMulVec (dz i) (dz i)) + R) =
    (∑ i, w i •
        Matrix.vecMulVec (Sum.elim (dx i) (dz i)) (Sum.elim (dx i) (dz i))) +
      Matrix.fromBlocks 0 0 0 R := by
  ext i j
  cases i <;> cases j <;>
    simp [Matrix.sum_apply, Matrix.vecMulVec_apply]

/-- The innovation covariance built from nonnegatively weighted outer
products plus a positive definite sensor noise is positive definite. -/
theorem innovation_posDef {m : ℕ} (w : Fin 15 → ℝ) (hw : ∀ i, 0 ≤ w i)
    (dz : Fin 15 → Fin m → ℝ) {R : Matrix (Fin m) (Fin m) ℝ} (hR : R.PosDef) :
    ((∑ i, w i • Matrix.vecMulVec (dz i) (dz i)) + R).PosDef :=
  Matrix.PosDef.posSemidef_add (posSemidef_weighted_outer w hw dz) hR

/-- Core Schur-complement fact for the sigma-point update: with blocks
jointly reconstructed from the same sigma differences with nonnegative
weights, and positive definite sensor noise, the updated covariance
P - T S⁻¹ Tᵀ is positive semidefinite. -/
theorem schur_update_psd {m : ℕ} (w : Fin 15 → ℝ) (hw : ∀ i, 0 ≤ w i)
    (dx : Fin 15 → Fin 5 → ℝ) (dz : Fin 15 → Fin m → ℝ)
    {R : Matrix (Fin m) (Fin m) ℝ} (hR : R.PosDef) :
    ((∑ i, w i • Matrix.vecMulVec (dx i) (dx i)) -
        (∑ i, w i • Matrix.vecMulVec (dx i) (dz i)) *
          ((∑ i, w i • Matrix.vecMulVec (dz i) (dz i)) + R)⁻¹ *
          (∑ i, w i • Matrix.vecMulVec (dx i) (dz i))ᵀ).PosSemidef := by
  set P := ∑ i, w i • Matrix.vecMulVec (dx i) (dx i) with hPdef
  set T := ∑ i, w i • Matrix.vecMulVec (dx i) (dz i) with hTdef
  set S := (∑ i, w i • Matrix.vecMulVec (dz i) (dz i)) + R with hSdef
  have hS : S.PosDef := innovation_posDef w hw dz hR
  haveI : Invertible S := hS.isUnit.invertible
  have hTc : Tᴴ = ∑ i, w i • Matrix.vecMulVec (dz i) (dx i) := by
    rw [Matrix.conjTranspose_eq_transpose_of_trivial, hTdef, Matrix.transpose_sum]
    refine Finset.sum_congr rfl fun i _ => ?_
    rw [Matrix.transpose_smul, vecMulVec_transpose]
  have hJ : (Matrix.fromBlocks P T Tᴴ S).PosSemidef := by
    rw [hTc, hPdef, hTdef, hSdef, joint_blocks]
    exact (posSemidef_weighted_outer w hw _).add (posSemidef_fromBlocks_zero hR.posSemidef)
  have h2 := (Matrix.PosSemidef.fromBlocks₂₂ P T hS).mp hJ
  rwa [Matrix.conjTranspose_eq_transpose_of_trivial] at h2

/-- Gain algebra: with S symmetric and invertible, K S Kᵀ for
K = T S⁻¹ collapses to T S⁻¹ Tᵀ. -/
theorem gain_cov_collapse {m : ℕ} (T : Matrix (Fin 5) (Fin m) ℝ)
    {S : Matrix (Fin m) (Fin m) ℝ} (hsym : Sᵀ = S) (hdet : IsUnit S.det) :
    T * S⁻¹ * S * (T * S⁻¹)ᵀ = T * S⁻¹ * Tᵀ := by
  rw [Matrix.transpose_mul, Matrix.transpose_nonsing_inv, hsym]
  rw [Matrix.mul_assoc (T * S⁻¹) S (S⁻¹ * Tᵀ), ← Matrix.mul_assoc S S⁻¹ Tᵀ,
      Matrix.mul_nonsing_inv S hdet, Matrix.one_mul]

/-- The modelled position-sensor noise is positive definite. -/
theorem R_laser_posDef : R_laser.PosDef := by
  unfold R_laser
  apply Matrix.PosDef.diagonal
  intro i
  fin_cases i <;> norm_num

/-- The modelled range-sensor noise is positive definite. -/
theorem R_radar_posDef : R_radar.PosDef := by
  unfold R_radar
  apply Matrix.PosDef.diagonal
  intro i
  fin_cases i <;> norm_num

/-- The sigma-point updated covariance, fed with the covariance and the
cross covariance reconstructed from the same sigma points, is positive
semidefinite whenever the sensor noise is positive definite. -/
theorem ukfUpdatedCov_psd {m : ℕ} (pts : Fin 15 → Fin 5 → ℝ) (xp : Fin 5 → ℝ)
    (dz : Fin 15 → Fin m → ℝ) {R : Matrix (Fin m) (Fin m) ℝ} (hR : R.PosDef) :
    (ukfUpdatedCov (ukfCovOf pts xp)
      (ukfCrossCov (fun i => stateDiff xp (pts i)) dz) (ukfInnovCov dz R)).PosSemidef := by
  have hS : (ukfInnovCov dz R).PosDef := innovation_posDef wSig wSig_nonneg dz hR
  have hX := schur_update_psd wSig wSig_nonneg (fun i => stateDiff xp (pts i)) dz hR
  unfold ukfUpdatedCov
  rw [gain_cov_collapse _ (isSymm_of_posSemidef hS.posSemidef).eq
      (hS.det_pos.ne'.isUnit)]
  unfold ukfCovOf ukfCrossCov ukfInnovCov
  rw [symmetrize_eq_self (isSymm_of_posSemidef hX)]
  exact hX

/-- The linear Kalman covariance update preserves positive
semidefiniteness when the sensor noise is positive definite. -/
theorem kalman_update_psd {m : ℕ} (H : Matrix (Fin m) (Fin 5) ℝ)
    {R : Matrix (Fin m) (Fin m) ℝ} (hR : R.PosDef)
    {P : Matrix (Fin 5) (Fin 5) ℝ} (hP : P.PosSemidef) :
    (ekfUpdateCov H R P).PosSemidef := by
  set S := H * P * Hᵀ + R with hSdef
  have hSpsd : (H * P * Hᵀ).PosSemidef := by
    have h := hP.mul_mul_conjTranspose_same H
    rwa [Matrix.conjTranspose_eq_transpose_of_trivial] at h
  have hS : S.PosDef := Matrix.PosDef.posSemidef_add hSpsd hR
  haveI : Invertible S := hS.isUnit.invertible
  have hPB : (P * Hᵀ)ᴴ = H * P := by
    rw [Matrix.conjTranspose_eq_transpose_of_trivial, Matrix.transpose_mul,
        Matrix.transpose_transpose, (isSymm_of_posSemidef hP).eq]
  have hstack : Matrix.fromBlocks P (P * Hᵀ) (H * P) S =
      Matrix.fromRows (1 : Matrix (Fin 5) (Fin 5) ℝ) H * P *
        (Matrix.fromRows (1 : Matrix (Fin 5) (Fin 5) ℝ) H)ᴴ +
        Matrix.fromBlocks 0 0 0 R := by
    rw [Matrix.conjTranspose_fromRows_eq_fromColumns_conjTranspose,
        Matrix.fromRows_mul, Matrix.fromRows_mul_fromColumns, Matrix.fromBlocks_add]
    simp [Matrix.conjTranspose_eq_transpose_of_trivial, hSdef]
  have hJ : (Matrix.fromBlocks P (P * Hᵀ) ((P * Hᵀ)ᴴ) S).PosSemidef := by
    rw [hPB, hstack]
    exact (hP.mul_mul_conjTranspose_same _).add (posSemidef_fromBlocks_zero hR.posSemidef)
  have h2 := (Matrix.PosSemidef.fromBlocks₂₂ P (P * Hᵀ) hS).mp hJ
  rw [hPB] at h2
  have heq : ekfUpdateCov H R P = P - P * Hᵀ * S⁻¹ * (H * P) := by
    show symmetrize ((1 - P * Hᵀ * (H * P * Hᵀ + R)⁻¹ * H) * P) = _
    rw [← hSdef, Matrix.sub_mul, Matrix.one_mul, Matrix.mul_assoc (P * Hᵀ * S⁻¹) H P]
    exact symmetrize_eq_self (isSymm_of_posSemidef h2)
  rw [heq]
  exact h2

/-- The linearized predict step preserves positive semidefiniteness of the
covariance. -/
theorem ekfPredictCov_psd (x : Fin 5 → ℝ) {P : Matrix (Fin 5) (Fin 5) ℝ}
    (hP : P.PosSemidef) (dt sa sy : ℝ) :
    (ekfPredictCov x P dt sa sy).PosSemidef := by
  unfold ekfPredictCov processNoiseQ
  apply Matrix.PosSemidef.add
  · have h := hP.mul_mul_conjTranspose_same (ctrvJacobian x dt)
    rwa [Matrix.conjTranspose_eq_transpose_of_trivial] at h
  · have hd : (Matrix.diagonal ![sa ^ 2, sy ^ 2] : Matrix (Fin 2) (Fin 2) ℝ).PosSemidef := by
      apply Matrix.PosSemidef.diagonal
      rw [Pi.le_def]
      intro i
      fin_cases i <;> simp <;> positivity
    have h := hd.mul_mul_conjTranspose_same (noiseGain x dt)
    rwa [Matrix.conjTranspose_eq_transpose_of_trivial] at h

/-- C9: every command-line filter string other than the exact "ukf"
(including "ekf", misspellings such as "UKF", and arbitrary garbage)
constructs the EKF variant, with no validation error; only the exact
string "ukf" selects the sigma-point variant. -/
theorem claim_C9 :
    (∀ s : String, s ≠ "ukf" → selectFilter s = FilterChoice.ekf) ∧
    selectFilter "ukf" = FilterChoice.ukf ∧
    selectFilter "ekf" = FilterChoice.ekf ∧ selectFilter "UKF" = FilterChoice.ekf := by
  refine ⟨fun s hs => ?_, by simp [selectFilter], by simp [selectFilter], ?_⟩
  · simp [selectFilter, hs]
  · simp [selectFilter]

/-- Witness for C9 at the concrete misspelling "UKF". -/
theorem claim_C9_witness : selectFilter "UKF" = FilterChoice.ekf :=
  claim_C9.1 "UKF" (by decide)

/-- C10: the 4-component estimate recorded for RMSE scoring is
(px, py, v cos yaw, v sin yaw) computed from state components 0..3, the
simulator path and the CSV path apply the identical conversion, and it is
compared against the first four ground-truth components. -/
theorem claim_C10 :
    (∀ x : Fin 5 → ℝ,
        estimateSimulator x =
          ![x 0, x 1, x 2 * Real.cos (x 3), x 2 * Real.sin (x 3)]) ∧
    (∀ x : Fin 5 → ℝ, estimateSimulator x = estimateCsvFile x) ∧
    (∀ g : Fin 6 → ℚ, ∀ i : Fin 4, groundTruthHead4 g i = g (Fin.castLE (by omega) i)) := by
  refine ⟨fun x => ?_, fun x => rfl, fun g i => rfl⟩
  funext j
  fin_cases j <;> simp [estimateSimulator] <;> ring

/-- C6: a line whose first token is "L" parses to a LASER-tagged
measurement carrying the 2-vector (px, py) and the following timestamp; a
line whose first token is "R" parses to a RADAR-tagged measurement
carrying the 3-vector (rho, theta, rho_dot) and the following timestamp;
the parsed tag is always one of the two variants or absent. -/
theorem claim_C6 :
    (∀ (px py ts : ℚ) (rest : List ℚ),
        (getMeasurement "L" (px :: py :: ts :: rest)).sensor_type_ =
            some SensorType.LASER ∧
        (getMeasurement "L" (px :: py :: ts :: rest)).raw_measurements_ = [px, py] ∧
        (getMeasurement "L" (px :: py :: ts :: rest)).timestamp_ = ts) ∧
    (∀ (ro theta rod ts : ℚ) (rest : List ℚ),
        (getMeasurement "R" (ro :: theta :: rod :: ts :: rest)).sensor_type_ =
            some SensorType.RADAR ∧
        (getMeasurement "R" (ro :: theta :: rod :: ts :: rest)).raw_measurements_ =
            [ro, theta, rod] ∧
        (getMeasurement "R" (ro :: theta :: rod :: ts :: rest)).timestamp_ = ts) ∧
    (∀ (tag : String) (fields : List ℚ),
        (getMeasurement tag fields).sensor_type_ = some SensorType.LASER ∨
        (getMeasurement tag fields).sensor_type_ = some SensorType.RADAR ∨
        (getMeasurement tag fields).sensor_type_ = none) := by
  refine ⟨fun px py ts rest => ?_, fun ro theta rod ts rest => ?_, fun tag fields => ?_⟩
  · refine ⟨?_, ?_, ?_⟩ <;> simp [getMeasurement, extractNum]
  · refine ⟨?_, ?_, ?_⟩ <;> simp [getMeasurement, extractNum]
  · unfold getMeasurement
    split
    · simp
    · split <;> simp

/-- C3: the CTRV process model uses straight-line motion below the
turn-rate epsilon (with no division by the turn rate) and the closed-form
integration otherwise; in both branches yaw advances by yawdd times dt
while v and yawdd are unchanged. -/
theorem claim_C3 (s : Fin 5 → ℝ) (dt : ℝ) (_hdt : 0 ≤ dt) :
    (|s 4| < epsYawdd →
      processModel s dt =
        ![s 0 + s 2 * Real.cos (s 3) * dt,
          s 1 + s 2 * Real.sin (s 3) * dt,
          s 2, s 3 + s 4 * dt, s 4]) ∧
    (¬ |s 4| < epsYawdd →
      processModel s dt =
        ![s 0 + s 2 / s 4 * (Real.sin (s 3 + s 4 * dt) - Real.sin (s 3)),
          s 1 + s 2 / s 4 * (-Real.cos (s 3 + s 4 * dt) + Real.cos (s 3)),
          s 2, s 3 + s 4 * dt, s 4]) ∧
    processModel s dt 2 = s 2 ∧ processModel s dt 4 = s 4 := by
  refine ⟨fun h => ?_, fun h => ?_, ?_, ?_⟩
  · funext j
    fin_cases j <;> simp [processModel, h]
  · funext j
    fin_cases j <;> simp [processModel, h]
  · simp [processModel]
  · simp [processModel]

/-- Witness for C3 at a concrete state and elapsed time. -/
theorem claim_C3_witness :
    (0 : ℝ) ≤ 1 ∧
      processModel ![0, 0, 1, 0, 0] 1 2 = (![0, 0, 1, 0, 0] : Fin 5 → ℝ) 2 :=
  ⟨by norm_num, (claim_C3 ![0, 0, 1, 0, 0] 1 (by norm_num)).2.2.1⟩

/-- C5: a range measurement (rho=5, theta=0, rho_dot=0) fed as the very
first measurement initializes the position to exactly (5, 0) by
polar-to-Cartesian conversion, transitions the engine from Uninitialized
to Running, and performs no update (NIS bookkeeping untouched) - for
either filter variant. -/
theorem claim_C5 (variant : FilterChoice) :
    (ProcessMeasurement
        (getMeasurement "R" [5, 0, 0, 1477010443000000, 5, 0, 0, 0, 0, 0])
        (mkEngine variant true true 0.6 0.4)).x_ 0 = 5 ∧
    (ProcessMeasurement
        (getMeasurement "R" [5, 0, 0, 1477010443000000, 5, 0, 0, 0, 0, 0])
        (mkEngine variant true true 0.6 0.4)).x_ 1 = 0 ∧
    (ProcessMeasurement
        (getMeasurement "R" [5, 0, 0, 1477010443000000, 5, 0, 0, 0, 0, 0])
        (mkEngine variant true true 0.6 0.4)).is_initialized_ = true ∧
    (ProcessMeasurement
        (getMeasurement "R" [5, 0, 0, 1477010443000000, 5, 0, 0, 0, 0, 0])
        (mkEngine variant true true 0.6 0.4)).timestep_ = 0 ∧
    (ProcessMeasurement
        (getMeasurement "R" [5, 0, 0, 1477010443000000, 5, 0, 0, 0, 0, 0])
        (mkEngine variant true true 0.6 0.4)).nis_laser_counter_ = 0 ∧
    (ProcessMeasurement
        (getMeasurement "R" [5, 0, 0, 1477010443000000, 5, 0, 0, 0, 0, 0])
        (mkEngine variant true true 0.6 0.4)).nis_radar_counter_ = 0 := by
  refine ⟨?_, ?_, ?_, ?_, ?_, ?_⟩ <;>
    simp [ProcessMeasurement, getMeasurement, extractNum, mkEngine, initState, rawAt]

/-- Counterexample for C8: the malformed line with tag "L" and only two
numeric fields (wrong field count: timestamp and ground truth missing) is
not rejected and no error is reported; parsing defaults the missing
fields to 0 and the engine processes the package, changing its state
vector (position x becomes 5). -/
theorem claim_C8_counterexample :
    ¬ ((ProcessMeasurement (getMeasurement "L" [5, 7])
          (mkEngine FilterChoice.ukf true true 0.6 0.4)).x_ 0 =
        (mkEngine FilterChoice.ukf true true 0.6 0.4).x_ 0) := by
  simp [ProcessMeasurement, getMeasurement, extractNum, mkEngine, initState, rawAt]

/-- C8 (amended): no error outcome exists for a malformed line: the parser
substitutes 0 for missing numeric fields and hands a well-formed-looking
package to the engine (which may then mutate state); only a line with an
unrecognized sensor tag produces a package without a variant, which the
engine consumes without mutating anything. -/
theorem claim_C8 :
    (∀ (tag : String) (fields : List ℚ), tag ≠ "L" → tag ≠ "R" →
        (getMeasurement tag fields).sensor_type_ = none) ∧
    (∀ (e : Engine) (p : MeasurementPackage), p.sensor_type_ = none →
        ProcessMeasurement p e = e) ∧
    (∀ px py : ℚ,
        (getMeasurement "L" [px, py]).sensor_type_ = some SensorType.LASER ∧
        (getMeasurement "L" [px, py]).raw_measurements_ = [px, py] ∧
        (getMeasurement "L" [px, py]).timestamp_ = 0) := by
  refine ⟨fun tag fields h1 h2 => ?_, fun e p hp => ?_, fun px py => ?_⟩
  · simp [getMeasurement, h1, h2]
  · simp [ProcessMeasurement, hp]
  · refine ⟨?_, ?_, ?_⟩ <;> simp [getMeasurement, extractNum]

/-- Witness for C8 (amended) at a concrete unrecognized tag and package. -/
theorem claim_C8_witness :
    (getMeasurement "X" []).sensor_type_ = none ∧
      ProcessMeasurement
          { sensor_type_ := none, raw_measurements_ := [], timestamp_ := 0,
            ground_truth_ := fun _ => 0 }
          (mkEngine FilterChoice.ekf true true 0.6 0.4) =
        mkEngine FilterChoice.ekf true true 0.6 0.4 :=
  ⟨claim_C8.1 "X" [] (by decide) (by decide), claim_C8.2.1 _ _ rfl⟩

/-- The linearized step's state mean has normalized heading. -/
theorem ekfStep_mean_mem (e : Engine) (st : SensorType) (dt : ℝ)
    (p : MeasurementPackage) : (ekfStep e st dt p).1 3 ∈ Set.Ioc (-pi) pi := by
  unfold ekfStep
  cases st <;> simp [ekfUpdateLaser, ekfUpdateRadar] <;> exact normalizeYaw_mem _

/-- The sigma-point step's state mean has normalized heading. -/
theorem ukfStep_mean_mem (e : Engine) (st : SensorType) (dt : ℝ)
    (p : MeasurementPackage) : (ukfStep e st dt p).1 3 ∈ Set.Ioc (-pi) pi := by
  unfold ukfStep
  cases st <;> simp [ukfUpdate] <;> exact normalizeYaw_mem _

/-- One facade call preserves the heading invariant. -/
theorem headingInv_step (p : MeasurementPackage) (e : Engine) (h : HeadingInv e) :
    HeadingInv (ProcessMeasurement p e) := by
  cases hst : p.sensor_type_ with
  | none => simpa [ProcessMeasurement, hst] using h
  | some st =>
      cases st
      all_goals
        first
          | (by_cases huse : e.use_laser = false
             case pos => simpa [ProcessMeasurement, hst, huse] using h)
          | (by_cases huse : e.use_radar = false
             case pos => simpa [ProcessMeasurement, hst, huse] using h)
      all_goals by_cases hinit : e.is_initialized_ = false
      case pos | pos =>
        intro _
        simp [ProcessMeasurement, hst, huse, hinit, initState]
        constructor <;> linarith [Real.pi_pos]
      all_goals
        intro _
        cases hv : e.variant <;>
          simp [ProcessMeasurement, hst, huse, hinit, hv] <;>
          first
            | exact Set.mem_Ioc.mp (ekfStep_mean_mem _ _ _ _)
            | exact Set.mem_Ioc.mp (ukfStep_mean_mem _ _ _ _)

/-- C1: for every processed measurement stream of either filter variant,
after every predict and update call (hence after arbitrarily many
cumulative steps) the heading component (index 3) of the exposed state
lies in `(-pi, pi]`: the invariant holds for a freshly constructed engine
and is preserved by every ProcessMeasurement call. -/
theorem claim_C1 :
    (∀ (e : Engine) (ms : List MeasurementPackage),
        HeadingInv e → HeadingInv (processAll ms e)) ∧
    (∀ (variant : FilterChoice) (ul ur : Bool) (sa sy : ℝ),
        HeadingInv (mkEngine variant ul ur sa sy)) := by
  constructor
  · intro e ms
    induction ms generalizing e with
    | nil => exact fun h => h
    | cons q qs ih => exact fun h => ih _ (headingInv_step q e h)
  · intro variant ul ur sa sy h
    simp [mkEngine] at h

/-- Witness for C1: a concrete engine that has just initialized from a
position measurement satisfies the heading invariant. -/
theorem claim_C1_witness :
    HeadingInv (processAll
      [getMeasurement "L" [1, 1, 0, 1, 1, 0, 0, 0, 0]]
      (mkEngine FilterChoice.ukf true true 0.6 0.4)) :=
  claim_C1.1 _ _ (claim_C1.2 FilterChoice.ukf true true 0.6 0.4)

/-- One facade call leaves both NIS counters non-decreasing and preserves
their bound by the step counter. -/
theorem counter_step (e : Engine) (p : MeasurementPackage) :
    (e.nis_laser_counter_ ≤ (ProcessMeasurement p e).nis_laser_counter_ ∧
     e.nis_radar_counter_ ≤ (ProcessMeasurement p e).nis_radar_counter_) ∧
    (CounterInv e → CounterInv (ProcessMeasurement p e)) := by
  cases hst : p.sensor_type_ with
  | none => simp [ProcessMeasurement, hst, CounterInv]
  | some st =>
      cases st
      all_goals
        first
          | (by_cases huse : e.use_laser = false
             case pos => simp [ProcessMeasurement, hst, huse, CounterInv])
          | (by_cases huse : e.use_radar = false
             case pos => simp [ProcessMeasurement, hst, huse, CounterInv])
      all_goals by_cases hinit : e.is_initialized_ = false
      case pos | pos => simp [ProcessMeasurement, hst, huse, hinit, CounterInv]
      all_goals
        simp [ProcessMeasurement, hst, huse, hinit, CounterInv]
        intro h1 h2
        refine ⟨?_, ?_⟩ <;> first | (split <;> omega) | omega

/-- C7: the engine maintains one NIS violation counter per sensor type
plus a shared step counter; each per-sensor counter is non-decreasing at
every call and never exceeds the shared step counter over any processed
stream. -/
theorem claim_C7 :
    (∀ (e : Engine) (p : MeasurementPackage),
        e.nis_laser_counter_ ≤ (ProcessMeasurement p e).nis_laser_counter_ ∧
        e.nis_radar_counter_ ≤ (ProcessMeasurement p e).nis_radar_counter_) ∧
    (∀ (e : Engine) (p : MeasurementPackage),
        CounterInv e → CounterInv (ProcessMeasurement p e)) ∧
    (∀ (variant : FilterChoice) (ul ur : Bool) (sa sy : ℝ)
        (ms : List MeasurementPackage),
        CounterInv (processAll ms (mkEngine variant ul ur sa sy))) := by
  refine ⟨fun e p => (counter_step e p).1, fun e p => (counter_step e p).2, ?_⟩
  intro variant ul ur sa sy ms
  have h0 : CounterInv (mkEngine variant ul ur sa sy) := by
    constructor <;> simp [mkEngine]
  have hstep : ∀ (e : Engine) (ms : List MeasurementPackage),
      CounterInv e → CounterInv (processAll ms e) := by
    intro e ms
    induction ms generalizing e with
    | nil => exact fun h => h
    | cons q qs ih => exact fun h => ih _ ((counter_step e q).2 h)
  exact hstep _ _ h0

/-- Witness for C7 at a concrete engine and package. -/
theorem claim_C7_witness :
    CounterInv (ProcessMeasurement
      { sensor_type_ := none, raw_measurements_ := [], timestamp_ := 0,
        ground_truth_ := fun _ => 0 }
      (mkEngine FilterChoice.ukf true true 0.6 0.4)) :=
  claim_C7.2.1 _ _ (by constructor <;> simp [mkEngine])

/-- C4: predicting with dt = 0 is the identity on the state mean, for both
filter variants, on every state with normalized heading (the states the
engine exposes). -/
theorem claim_C4 (x : Fin 5 → ℝ) (hx : x 3 ∈ Set.Ioc (-pi) pi) :
    ekfPredictMean x 0 = x ∧
    ∀ (P : Matrix (Fin 5) (Fin 5) ℝ) (sa sy : ℝ),
        ukfMeanOf (ukfPredictedSigma x P sa sy 0) = x := by
  constructor
  · unfold ekfPredictMean
    rw [processModel_zero]
    unfold normalizeYaw
    rw [normalizeAngle_eq_self hx, Function.update_eq_self]
  · intro P sa sy
    exact ukfMean_zero x hx P sa sy

/-- Witness for C4 at the zero state. -/
theorem claim_C4_witness :
    ((fun _ => (0 : ℝ)) : Fin 5 → ℝ) 3 ∈ Set.Ioc (-pi) pi ∧
      ekfPredictMean (fun _ => 0) 0 = (fun _ => (0 : ℝ) : Fin 5 → ℝ) :=
  have hx : ((fun _ => (0 : ℝ)) : Fin 5 → ℝ) 3 ∈ Set.Ioc (-pi) pi :=
    Set.mem_Ioc.mpr ⟨neg_lt_zero.mpr Real.pi_pos, Real.pi_pos.le⟩
  ⟨hx, (claim_C4 _ hx).1⟩

/-- C2: the 5x5 state covariance stays symmetric and positive
semidefinite through every predict and every update of either variant:
the linearized predict and both linearized sensor updates map a symmetric
PSD covariance to a symmetric PSD one, and the sigma-point predict
reconstruction and update (fed, as in the engine, with the covariance and
cross-covariance built from the same sigma points) always produce a
symmetric PSD covariance. -/
theorem claim_C2 :
    (∀ (x : Fin 5 → ℝ) (P : Matrix (Fin 5) (Fin 5) ℝ) (dt sa sy : ℝ),
        P.PosSemidef →
          (ekfPredictCov x P dt sa sy).PosSemidef ∧
            (ekfPredictCov x P dt sa sy).IsSymm) ∧
    (∀ P : Matrix (Fin 5) (Fin 5) ℝ, P.PosSemidef →
        (ekfUpdateCov H_laser R_laser P).PosSemidef ∧
          (ekfUpdateCov H_laser R_laser P).IsSymm) ∧
    (∀ (x : Fin 5 → ℝ) (P : Matrix (Fin 5) (Fin 5) ℝ), P.PosSemidef →
        (ekfUpdateCov (radarJacobian x) R_radar P).PosSemidef ∧
          (ekfUpdateCov (radarJacobian x) R_radar P).IsSymm) ∧
    (∀ (pts : Fin 15 → Fin 5 → ℝ) (xp : Fin 5 → ℝ),
        (ukfCovOf pts xp).PosSemidef ∧ (ukfCovOf pts xp).IsSymm) ∧
    (∀ (pts : Fin 15 → Fin 5 → ℝ) (xp : Fin 5 → ℝ) (dz : Fin 15 → Fin 2 → ℝ),
        (ukfUpdatedCov (ukfCovOf pts xp)
            (ukfCrossCov (fun i => stateDiff xp (pts i)) dz)
            (ukfInnovCov dz R_laser)).PosSemidef ∧
          (ukfUpdatedCov (ukfCovOf pts xp)
              (ukfCrossCov (fun i => stateDiff xp (pts i)) dz)
              (ukfInnovCov dz R_laser)).IsSymm) ∧
    (∀ (pts : Fin 15 → Fin 5 → ℝ) (xp : Fin 5 → ℝ) (dz : Fin 15 → Fin 3 → ℝ),
        (ukfUpdatedCov (ukfCovOf pts xp)
            (ukfCrossCov (fun i => stateDiff xp (pts i)) dz)
            (ukfInnovCov dz R_radar)).PosSemidef ∧
          (ukfUpdatedCov (ukfCovOf pts xp)
              (ukfCrossCov (fun i => stateDiff xp (pts i)) dz)
              (ukfInnovCov dz R_radar)).IsSymm) := by
  refine ⟨fun x P dt sa sy hP => ?_, fun P hP => ?_, fun x P hP => ?_,
    fun pts xp => ?_, fun pts xp dz => ?_, fun pts xp dz => ?_⟩
  · have h := ekfPredictCov_psd x hP dt sa sy
    exact ⟨h, isSymm_of_posSemidef h⟩
  · have h := kalman_update_psd H_laser R_laser_posDef hP
    exact ⟨h, isSymm_of_posSemidef h⟩
  · have h := kalman_update_psd (radarJacobian x) R_radar_posDef hP
    exact ⟨h, isSymm_of_posSemidef h⟩
  · have h : (ukfCovOf pts xp).PosSemidef :=
      posSemidef_weighted_outer wSig wSig_nonneg _
    exact ⟨h, isSymm_of_posSemidef h⟩
  · have h := ukfUpdatedCov_psd pts xp dz R_laser_posDef
    exact ⟨h, isSymm_of_posSemidef h⟩
  · have h := ukfUpdatedCov_psd pts xp dz R_radar_posDef
    exact ⟨h, isSymm_of_posSemidef h⟩

/-- Witness for C2 at concrete inputs (identity prior covariance, zero
state, zero sigma points). -/
theorem claim_C2_witness :
    ((ekfPredictCov (fun _ => 0) 1 1 1 1).PosSemidef ∧
        (ekfPredictCov (fun _ => 0) 1 1 1 1).IsSymm) ∧
      ((ekfUpdateCov H_laser R_laser 1).PosSemidef ∧
          (ekfUpdateCov H_laser R_laser 1).IsSymm) ∧
      ((ekfUpdateCov (radarJacobian fun _ => 0) R_radar 1).PosSemidef ∧
          (ekfUpdateCov (radarJacobian fun _ => 0) R_radar 1).IsSymm) :=
  ⟨claim_C2.1 (fun _ => 0) 1 1 1 1 Matrix.PosSemidef.one,
   claim_C2.2.1 1 Matrix.PosSemidef.one,
   claim_C2.2.2.1 (fun _ => 0) 1 Matrix.PosSemidef.one⟩

end SDCFusion
